import Mathlib

/-!
Verification of the configuration-subsetting core of `serve_subset.py`
(mkdocs documentation subset server).

The script decodes a `mkdocs.yml` YAML document, locates a navigation
section by breadth-first search, derives a set of top-level directories
to exclude, merges exclusion patterns into the `exclude` plugin entry,
suppresses cross-reference options of the `mkdocstrings` plugin, and
writes the resulting document back with custom YAML tags preserved.

This file shallowly embeds those operations:

* `YamlNode` / `Value` model resolved-tag YAML nodes and the Python
  values that `yaml.SafeLoader` (with the script's registered
  constructors) builds from them; `construct` models the construction
  phase of decoding, `represent` the representation phase of encoding
  through `CustomDumper` with the script's representers and
  `sort_keys=False`.  Mappings are ordered association lists with
  string keys (non-string keys, ints and floats are outside the model;
  none of the verified properties concern them).
* `Nav` models the navigation items fed to `find_section` /
  `get_all_paths` (strings, sequences, mappings).  A `Nav` mapping
  carries its first key/value explicitly, so mappings in the navigation
  model are nonempty by construction (CPython raises `StopIteration`
  from `next(iter({}.keys()))` on an empty mapping, so empty mappings
  are excluded from the navigation universe rather than modelled).
* `findSection`, `getAllPaths`, `keptRootsOf`, `toExcludeRoots`,
  `regexPatterns`, `mergeExcludePlugin`, `suppressMkdocstrings` and
  `serveSubsetCore` each embed the correspondingly named piece of the
  script; Python exceptions (`KeyError`, `AttributeError`, `TypeError`)
  are modelled as `Except.error`.
-/

namespace ServeSubset

/-- ASCII lowercasing of one character.  Models Python's `str.lower()`
restricted to ASCII (all labels the script handles are ASCII; Unicode
case mapping is outside the model). -/
def lowerChar (c : Char) : Char :=
  if 'A' ≤ c ∧ c ≤ 'Z' then Char.ofNat (c.toNat + 32) else c

/-- Python's `s.lower()` (ASCII fragment). -/
def pyLower (s : String) : String := ⟨s.data.map lowerChar⟩

/-- Python's substring test `needle in hay`. -/
def strContains (hay needle : String) : Bool :=
  (List.range (hay.data.length + 1)).any
    (fun i => needle.data.isPrefixOf (hay.data.drop i))

/-- Python's `s.split("/")`: split on every separator occurrence,
keeping empty segments; `"".split("/") == [""]`. -/
def pySplitSlash (s : String) : List String :=
  (s.data.splitOn '/').map (fun l => ⟨l⟩)

/-- Does `pre` prefix `s`?  (Used for the `python/name:` multi-tag.) -/
def strIsPrefix (pre s : String) : Bool := pre.data.isPrefixOf s.data

/-- Drop a prefix of the length of `pre` from `s` (the tag suffix a
YAML multi-constructor receives). -/
def strDropPrefix (pre s : String) : String := ⟨s.data.drop pre.data.length⟩

/-- A navigation item as `find_section` / `get_all_paths` see it:
a Python `str`, `list`, or `dict` (with its insertion-ordered entries;
the first entry is carried explicitly, see the header comment). -/
inductive Nav where
  | str (s : String)
  | list (items : List Nav)
  | map (key : String) (val : Nav) (tail : List (String × Nav))
deriving Repr

mutual

/-- Size measure used for termination of the BFS queue recursion. -/
def navSize : Nav → Nat
  | .str _ => 1
  | .list xs => 1 + navSizeL xs
  | .map _ v tail => 1 + navSize v + navSizeP tail

def navSizeL : List Nav → Nat
  | [] => 0
  | x :: xs => navSize x + navSizeL xs

def navSizeP : List (String × Nav) → Nat
  | [] => 0
  | (_, v) :: xs => navSize v + navSizeP xs

end

theorem navSize_pos (n : Nav) : 0 < navSize n := by
  cases n <;> simp [navSize]

theorem navSizeL_append (xs ys : List Nav) :
    navSizeL (xs ++ ys) = navSizeL xs + navSizeL ys := by
  induction xs with
  | nil => simp [navSizeL]
  | cons x xs ih => simp [navSizeL, ih]; omega

/-- The items `find_section` enqueues after dequeuing a mapping with
first value `v`: each element of a list child, a dict child itself,
nothing for a string child. -/
def childQueue : Nav → List Nav
  | .list xs => xs
  | .map k v tail => [.map k v tail]
  | .str _ => []

theorem navSizeL_childQueue_lt (k : String) (v : Nav) (tail : List (String × Nav)) :
    navSizeL (childQueue v) < navSize (.map k v tail) := by
  cases v <;> simp [childQueue, navSize, navSizeL] <;> omega

/-- Does a dequeued item match the (already lowercased) target?  In the
script: the item is a `dict` and `target == key.lower()` for its first
key. -/
def isMatch (target : String) : Nav → Bool
  | .map k _ _ => target == pyLower k
  | _ => false

/-- The BFS loop of `find_section`: dequeue from the front; a dict whose
first key matches (case-insensitively) is returned; otherwise its first
value's children are appended to the queue; non-dict items are skipped. -/
def findSectionAux (target : String) (queue : List Nav) : Option Nav :=
  match queue with
  | [] => none
  | .str s :: rest => findSectionAux target rest
  | .list xs :: rest => findSectionAux target rest
  | .map k v tail :: rest =>
    if target == pyLower k then some (.map k v tail)
    else findSectionAux target (rest ++ childQueue v)
termination_by navSizeL queue
decreasing_by
  · simp [navSizeL]; have := navSize_pos (.str s); omega
  · simp [navSizeL]; have := navSize_pos (.list xs); omega
  · simp [navSizeL, navSizeL_append]
    have := navSizeL_childQueue_lt k v tail
    omega

/-- The function `find_section(nav, target)`: lowercase the target, initialize the
queue with all top-level items, run the BFS loop. -/
def findSection (nav : List Nav) (target : String) : Option Nav :=
  findSectionAux (pyLower target) nav

/-- The FIFO dequeue order of the BFS queue of `find_section`, as a
list: every dequeued item in order, children of each dequeued dict
appended behind the items already queued. -/
def bfsSeqAux (queue : List Nav) : List Nav :=
  match queue with
  | [] => []
  | .str s :: rest => .str s :: bfsSeqAux rest
  | .list xs :: rest => .list xs :: bfsSeqAux rest
  | .map k v tail :: rest => .map k v tail :: bfsSeqAux (rest ++ childQueue v)
termination_by navSizeL queue
decreasing_by
  · simp [navSizeL]; have := navSize_pos (.str s); omega
  · simp [navSizeL]; have := navSize_pos (.list xs); omega
  · simp [navSizeL, navSizeL_append]
    have := navSizeL_childQueue_lt k v tail
    omega

/-- The breadth-first dequeue order over a navigation forest, all
top-level items first. -/
def bfsSeq (nav : List Nav) : List Nav := bfsSeqAux nav

theorem findSectionAux_eq_find?_bfsSeqAux (target : String) :
    ∀ (queue : List Nav),
      findSectionAux target queue = (bfsSeqAux queue).find? (isMatch target)
  | [] => by simp [findSectionAux, bfsSeqAux]
  | .str s :: rest => by
    rw [findSectionAux, bfsSeqAux, List.find?]
    simp only [isMatch]
    exact findSectionAux_eq_find?_bfsSeqAux target rest
  | .list xs :: rest => by
    rw [findSectionAux, bfsSeqAux, List.find?]
    simp only [isMatch]
    exact findSectionAux_eq_find?_bfsSeqAux target rest
  | .map k v tail :: rest => by
    rw [findSectionAux, bfsSeqAux, List.find?]
    by_cases h : target == pyLower k
    · simp [isMatch, h]
    · simp only [isMatch, h]
      simp only [Bool.false_eq_true, if_false, cond_false]
      exact findSectionAux_eq_find?_bfsSeqAux target (rest ++ childQueue v)
termination_by queue => navSizeL queue
decreasing_by
  · simp [navSizeL]; have := navSize_pos (.str s); omega
  · simp [navSizeL]; have := navSize_pos (.list xs); omega
  · simp [navSizeL, navSizeL_append]
    have := navSizeL_childQueue_lt k v tail
    omega

/-! ## Tag-preserving YAML codec

`YamlNode` is a resolved-tag YAML node (what pyyaml's composer hands
to the construction phase); `Value` is the Python value the script's
loader builds.  `construct` models `yaml.load(..., Loader=SafeLoader)`
after the script's `add_constructor("!ENV", env_constructor)` and
`add_multi_constructor("tag:yaml.org,2002:python/name:", ...)`
registrations; `represent` models `yaml.dump(..., Dumper=CustomDumper,
sort_keys=False)` down to the node level. -/

/-- A YAML node with its resolved tag. -/
inductive YamlNode where
  | scalar (tag : String) (value : String)
  | seq (tag : String) (items : List YamlNode)
  | map (tag : String) (entries : List (YamlNode × YamlNode))
deriving Repr

/-- A decoded Python value: `str`, `bool`, `None`, `list`, `dict`
(ordered, string keys), `EnvTag` (payload a string or a list, exactly
as `env_constructor` builds it), or `PythonNameTag` (a tag suffix).
`otherStd` carries, opaquely, a value built by one of `SafeLoader`'s
other registered standard constructors (int, float, binary, timestamp,
omap, pairs, set): those tags are recognized by the loader — they
never reach `construct_undefined` — but the values themselves (Python
ints, floats, datetimes, ...) are outside the model and no verified
property inspects them, so the model keeps the tag and the scalar text
(empty for collection payloads) instead of the value.  Whether the
real constructor raises on a malformed payload (e.g. `int` on a
non-numeric string) is likewise outside the model. -/
inductive Value where
  | str (s : String)
  | bool (b : Bool)
  | null
  | list (xs : List Value)
  | dict (entries : List (String × Value))
  | envStr (s : String)
  | envList (xs : List Value)
  | pythonName (suffix : String)
  | otherStd (tag : String) (raw : String)
deriving Repr

def strTag : String := "tag:yaml.org,2002:str"
def boolTag : String := "tag:yaml.org,2002:bool"
def nullTag : String := "tag:yaml.org,2002:null"
def seqTag : String := "tag:yaml.org,2002:seq"
def mapTag : String := "tag:yaml.org,2002:map"
def pythonNamePrefix : String := "tag:yaml.org,2002:python/name:"
def intTag : String := "tag:yaml.org,2002:int"
def floatTag : String := "tag:yaml.org,2002:float"
def binaryTag : String := "tag:yaml.org,2002:binary"
def timestampTag : String := "tag:yaml.org,2002:timestamp"
def omapTag : String := "tag:yaml.org,2002:omap"
def pairsTag : String := "tag:yaml.org,2002:pairs"
def setTag : String := "tag:yaml.org,2002:set"

/-- Is the tag one of the seven other standard tags `SafeConstructor`
registers (besides str/bool/null/seq/map)?  These are recognized by
the loader and never fall through to `construct_undefined`. -/
def isOtherStdTag (t : String) : Bool :=
  t == intTag || t == floatTag || t == binaryTag || t == timestampTag ||
  t == omapTag || t == pairsTag || t == setTag

/-- The `SafeConstructor.bool_values` lookup on the lowercased scalar text. -/
def boolValue (s : String) : Option Bool :=
  if s == "yes" then some true
  else if s == "no" then some false
  else if s == "true" then some true
  else if s == "false" then some false
  else if s == "on" then some true
  else if s == "off" then some false
  else none

/-- Python's `d[k] = v` on an ordered Python dict: replace the value at the
first occurrence of the key (keeping its position), else append. -/
def setV : List (String × Value) → String → Value → List (String × Value)
  | [], k, v => [(k, v)]
  | (k', v') :: rest, k, v =>
    if k' == k then (k, v) :: rest else (k', v') :: setV rest k v

/-- Python's `d[k]` / `d.get(k)` on an ordered Python dict. -/
def lookupV (es : List (String × Value)) (k : String) : Option Value :=
  ((es.find? (fun e => e.1 == k)).map (fun e => e.2))

/-- Python's `k in d` on a Python dict. -/
def hasKeyV (es : List (String × Value)) (k : String) : Bool :=
  es.any (fun e => e.1 == k)

mutual

/-- The construction phase of `yaml.load` with the script's registered
constructors: exact-tag constructors first (standard scalar/collection
tags, the seven other registered standard tags carried opaquely as
`Value.otherStd`, and `"!ENV"` → `env_constructor`), then the
`"tag:yaml.org,2002:python/name:"` multi-constructor (which ignores the
node and wraps the tag suffix), then pyyaml's fallback
`construct_undefined`, which raises a `ConstructorError`
(`Except.error` here).  Mapping keys must construct to strings (the
model's dict keys; the script's documents have only string keys). -/
def construct : YamlNode → Except String Value
  | .scalar t v =>
    if t == strTag then .ok (.str v)
    else if t == boolTag then
      match boolValue (pyLower v) with
      | some b => .ok (.bool b)
      | none => .error "unresolvable bool scalar"
    else if t == nullTag then .ok .null
    else if t == "!ENV" then .ok (.envStr v)
    else if isOtherStdTag t then .ok (.otherStd t v)
    else if strIsPrefix pythonNamePrefix t then
      .ok (.pythonName (strDropPrefix pythonNamePrefix t))
    else .error ("could not determine a constructor for the tag " ++ t)
  | .seq t items =>
    if t == seqTag then
      match constructList items with
      | .ok vs => .ok (.list vs)
      | .error e => .error e
    else if t == "!ENV" then
      match constructList items with
      | .ok vs => .ok (.envList vs)
      | .error e => .error e
    else if isOtherStdTag t then .ok (.otherStd t "")
    else if strIsPrefix pythonNamePrefix t then
      .ok (.pythonName (strDropPrefix pythonNamePrefix t))
    else .error ("could not determine a constructor for the tag " ++ t)
  | .map t entries =>
    if t == mapTag then
      match constructMappingAux [] entries with
      | .ok es => .ok (.dict es)
      | .error e => .error e
    else if t == "!ENV" then
      -- `env_constructor` calls `construct_scalar` on a MappingNode,
      -- which raises unless the mapping has a special value key;
      -- modelled as an error (the script's documents never do this).
      .error "!ENV tag with a mapping payload"
    else if isOtherStdTag t then .ok (.otherStd t "")
    else if strIsPrefix pythonNamePrefix t then
      .ok (.pythonName (strDropPrefix pythonNamePrefix t))
    else .error ("could not determine a constructor for the tag " ++ t)

def constructList : List YamlNode → Except String (List Value)
  | [] => .ok []
  | x :: xs =>
    match construct x with
    | .ok v =>
      match constructList xs with
      | .ok vs => .ok (v :: vs)
      | .error e => .error e
    | .error e => .error e

/-- The method `construct_mapping`: construct each key and value in order and run
`mapping[key] = value` on an initially empty dict; a repeated key
overwrites the value while keeping the first position (Python dict
update).  Keys must be strings here (the model's dict keys; the
script's documents have only string keys). -/
def constructMappingAux (acc : List (String × Value)) :
    List (YamlNode × YamlNode) → Except String (List (String × Value))
  | [] => .ok acc
  | (kn, vn) :: rest =>
    match construct kn with
    | .ok (.str k) =>
      match construct vn with
      | .ok v => constructMappingAux (setV acc k v) rest
      | .error e => .error e
    | .ok _ => .error "non-string mapping key outside the model"
    | .error e => .error e

end

def constructMapping (entries : List (YamlNode × YamlNode)) :
    Except String (List (String × Value)) :=
  constructMappingAux [] entries

mutual

/-- The representation phase of `yaml.dump(..., Dumper=CustomDumper,
sort_keys=False)`: standard representers for `str`/`bool`/`None`/
`list`/`dict` (insertion order kept), the script's `env_representer`
(list payload → `represent_sequence("!ENV", ...)`, otherwise
`represent_scalar("!ENV", str(value))`), and the script's
`python_name_representer` (scalar with the reconstituted tag and an
empty payload). -/
def represent : Value → YamlNode
  | .str s => .scalar strTag s
  | .bool b => .scalar boolTag (if b then "true" else "false")
  | .null => .scalar nullTag "null"
  | .list xs => .seq seqTag (representList xs)
  | .dict es => .map mapTag (representEntries es)
  | .envStr s => .scalar "!ENV" s
  | .envList xs => .seq "!ENV" (representList xs)
  | .pythonName suffix => .scalar (pythonNamePrefix ++ suffix) ""
  | .otherStd t raw => .scalar t raw

def representList : List Value → List YamlNode
  | [] => []
  | x :: xs => represent x :: representList xs

def representEntries : List (String × Value) → List (YamlNode × YamlNode)
  | [] => []
  | (k, v) :: es => (.scalar strTag k, represent v) :: representEntries es

end

/-- Are the keys of an ordered dict pairwise distinct?  (Every dict a
Python program ever holds satisfies this; `construct` only produces
such dicts.) -/
def keysNodup : List (String × Value) → Bool
  | [] => true
  | (k, _) :: rest => !(rest.any (fun e => e.1 == k)) && keysNodup rest

mutual

/-- A `Value` is `good` when every dict inside it has pairwise
distinct keys — the invariant of values decoded from YAML. -/
def goodValue : Value → Bool
  | .str _ => true
  | .bool _ => true
  | .null => true
  | .list xs => goodValueL xs
  | .dict es => keysNodup es && goodValueE es
  | .envStr _ => true
  | .envList xs => goodValueL xs
  | .pythonName _ => true
  | .otherStd t _ => isOtherStdTag t

def goodValueL : List Value → Bool
  | [] => true
  | x :: xs => goodValue x && goodValueL xs

def goodValueE : List (String × Value) → Bool
  | [] => true
  | (_, v) :: es => goodValue v && goodValueE es

end

theorem setV_of_not_hasKey (acc : List (String × Value)) (k : String) (v : Value)
    (h : hasKeyV acc k = false) : setV acc k v = acc ++ [(k, v)] := by
  induction acc with
  | nil => simp [setV]
  | cons e rest ih =>
    simp only [hasKeyV, List.any_cons, Bool.or_eq_false_iff] at h
    simp [setV, h.1, ih (by simp [hasKeyV, h.2])]

/-- If an append of the python/name prefix is compared with a shorter
string, the comparison is false (length mismatch). -/
theorem pythonNameTag_ne (s t : String) (h : t.length < pythonNamePrefix.length) :
    ((pythonNamePrefix ++ s) == t) = false := by
  by_contra hc
  have : ((pythonNamePrefix ++ s) == t) = true := by
    cases hb : ((pythonNamePrefix ++ s) == t) with
    | true => rfl
    | false => exact absurd hb hc
  have he : pythonNamePrefix ++ s = t := eq_of_beq this
  have := congrArg String.length he
  rw [String.length_append] at this
  omega

theorem strIsPrefix_append (p s : String) : strIsPrefix p (p ++ s) = true := by
  rw [strIsPrefix, String.data_append, List.isPrefixOf_iff_prefix]
  exact List.prefix_append p.data s.data

theorem strDropPrefix_append (p s : String) : strDropPrefix p (p ++ s) = s := by
  rw [strDropPrefix, String.data_append]
  have : String.length p = p.data.length := rfl
  rw [List.drop_left]

/-- A python/name-prefixed tag is never one of the seven other
standard tags (all are shorter than the prefix). -/
theorem isOtherStdTag_pythonName_append (s : String) :
    isOtherStdTag (pythonNamePrefix ++ s) = false := by
  simp only [isOtherStdTag,
    pythonNameTag_ne s intTag (by decide),
    pythonNameTag_ne s floatTag (by decide),
    pythonNameTag_ne s binaryTag (by decide),
    pythonNameTag_ne s timestampTag (by decide),
    pythonNameTag_ne s omapTag (by decide),
    pythonNameTag_ne s pairsTag (by decide),
    pythonNameTag_ne s setTag (by decide),
    Bool.or_false]

/-- Conversely, none of the seven other standard tags starts with the
python/name prefix. -/
theorem isOtherStdTag_eq_false_of_prefix (t : String)
    (h : strIsPrefix pythonNamePrefix t = true) : isOtherStdTag t = false := by
  cases hstd : isOtherStdTag t with
  | false => rfl
  | true =>
    simp only [isOtherStdTag, Bool.or_eq_true, beq_iff_eq] at hstd
    rcases hstd with ((((((rfl | rfl) | rfl) | rfl) | rfl) | rfl) | rfl) <;>
      exact absurd h (by decide)


theorem hasKeyV_append (a b : List (String × Value)) (k : String) :
    hasKeyV (a ++ b) k = (hasKeyV a k || hasKeyV b k) := by
  simp [hasKeyV, List.any_append]

theorem foldl_setV_append (es : List (String × Value)) :
    ∀ (acc : List (String × Value)), keysNodup es = true →
      es.all (fun e => !hasKeyV acc e.1) = true →
      es.foldl (fun a e => setV a e.1 e.2) acc = acc ++ es := by
  induction es with
  | nil => intro acc _ _; simp
  | cons e rest ih =>
    intro acc hnd hdisj
    obtain ⟨k, v⟩ := e
    simp only [keysNodup, Bool.and_eq_true] at hnd
    simp only [List.all_cons, Bool.and_eq_true] at hdisj
    rw [List.foldl_cons]
    show rest.foldl (fun a e => setV a e.1 e.2) (setV acc k v) = _
    rw [setV_of_not_hasKey acc k v (by simpa using hdisj.1)]
    rw [ih (acc ++ [(k, v)]) hnd.2 ?_]
    · simp
    · rw [List.all_eq_true]
      intro e he
      rw [List.all_eq_true] at hdisj
      have h1 : (!hasKeyV acc e.1) = true := hdisj.2 e he
      rw [hasKeyV_append]
      simp only [Bool.not_eq_true'] at h1 ⊢
      rw [h1]
      simp only [Bool.false_or]
      have h2 : (rest.any (fun x => x.1 == k)) = false := by
        simpa using hnd.1
      rw [List.any_eq_false] at h2
      have h3 := h2 e he
      simp only [hasKeyV, List.any_cons, List.any_nil, Bool.or_false]
      rw [beq_eq_false_iff_ne]
      intro hk
      exact h3 (by rw [hk]; exact beq_self_eq_true e.1)

theorem construct_scalar_strTag (k : String) :
    construct (.scalar strTag k) = .ok (.str k) := rfl

mutual

theorem construct_represent : ∀ (v : Value), goodValue v = true →
    construct (represent v) = .ok v
  | .str s, _ => rfl
  | .bool true, _ => rfl
  | .bool false, _ => rfl
  | .null, _ => rfl
  | .envStr s, _ => rfl
  | .pythonName suffix, _ => by
    show construct (.scalar (pythonNamePrefix ++ suffix) "") = _
    simp only [construct,
      pythonNameTag_ne suffix strTag (by decide),
      pythonNameTag_ne suffix boolTag (by decide),
      pythonNameTag_ne suffix nullTag (by decide),
      pythonNameTag_ne suffix "!ENV" (by decide),
      isOtherStdTag_pythonName_append,
      strIsPrefix_append, strDropPrefix_append]
    simp
  | .otherStd t raw, h => by
    show construct (.scalar t raw) = _
    simp only [goodValue, isOtherStdTag, Bool.or_eq_true, beq_iff_eq] at h
    rcases h with ((((((rfl | rfl) | rfl) | rfl) | rfl) | rfl) | rfl) <;> rfl
  | .list xs, h => by
    have hx : constructList (representList xs) = .ok xs :=
      constructList_representList xs (by simpa [goodValue] using h)
    show construct (.seq seqTag (representList xs)) = _
    simp only [construct, beq_self_eq_true, if_true, hx]
  | .envList xs, h => by
    have hx : constructList (representList xs) = .ok xs :=
      constructList_representList xs (by simpa [goodValue] using h)
    show construct (.seq "!ENV" (representList xs)) = _
    simp only [construct, hx]
    rfl
  | .dict es, h => by
    simp only [goodValue, Bool.and_eq_true] at h
    have hx : constructMappingAux [] (representEntries es) =
        .ok (es.foldl (fun a e => setV a e.1 e.2) []) :=
      constructMappingAux_representEntries es [] h.2
    show construct (.map mapTag (representEntries es)) = _
    simp only [construct, beq_self_eq_true, if_true, hx]
    rw [foldl_setV_append es [] h.1 (by simp [hasKeyV])]
    simp

theorem constructList_representList : ∀ (xs : List Value), goodValueL xs = true →
    constructList (representList xs) = .ok xs
  | [], _ => rfl
  | x :: xs, h => by
    simp only [goodValueL, Bool.and_eq_true] at h
    show constructList (represent x :: representList xs) = _
    simp only [constructList, construct_represent x h.1,
      constructList_representList xs h.2]

theorem constructMappingAux_representEntries :
    ∀ (es : List (String × Value)) (acc : List (String × Value)),
      goodValueE es = true →
      constructMappingAux acc (representEntries es) =
        .ok (es.foldl (fun a e => setV a e.1 e.2) acc)
  | [], acc, _ => rfl
  | (k, v) :: rest, acc, h => by
    simp only [goodValueE, Bool.and_eq_true] at h
    show constructMappingAux acc
      ((.scalar strTag k, represent v) :: representEntries rest) = _
    simp only [constructMappingAux, construct_scalar_strTag,
      construct_represent v h.1,
      constructMappingAux_representEntries rest (setV acc k v) h.2,
      List.foldl_cons]

end

theorem hasKeyV_setV (es : List (String × Value)) (k : String) (v : Value) (q : String) :
    hasKeyV (setV es k v) q = (hasKeyV es q || k == q) := by
  induction es with
  | nil => simp [setV, hasKeyV]
  | cons e rest ih =>
    obtain ⟨a, b⟩ := e
    by_cases hak : (a == k) = true
    · rw [eq_of_beq hak]
      simp only [setV, beq_self_eq_true, if_true, hasKeyV, List.any_cons]
      cases hkq : (k == q) <;> simp
    · simp only [setV, hak, Bool.false_eq_true, if_false, hasKeyV, List.any_cons]
      have : hasKeyV (setV rest k v) q = (hasKeyV rest q || k == q) := ih
      simp only [hasKeyV] at this
      rw [this]
      cases (a == q) <;> cases (k == q) <;> simp

theorem keysNodup_setV (es : List (String × Value)) (k : String) (v : Value)
    (h : keysNodup es = true) : keysNodup (setV es k v) = true := by
  induction es with
  | nil => simp [setV, keysNodup]
  | cons e rest ih =>
    obtain ⟨a, b⟩ := e
    simp only [keysNodup, Bool.and_eq_true] at h
    by_cases hak : (a == k) = true
    · rw [eq_of_beq hak] at h
      simp only [setV, hak, if_true, keysNodup, Bool.and_eq_true]
      exact h
    · simp only [setV, hak, Bool.false_eq_true, if_false, keysNodup, Bool.and_eq_true]
      refine ⟨?_, ih h.2⟩
      have hmem : (rest.any (fun e => e.1 == a)) = false := by simpa using h.1
      have : hasKeyV (setV rest k v) a = (hasKeyV rest a || k == a) := hasKeyV_setV rest k v a
      simp only [hasKeyV] at this
      simp only [Bool.not_eq_true']
      rw [this, hmem]
      simp only [Bool.false_or]
      rw [beq_eq_false_iff_ne]
      intro hka
      exact hak (by rw [hka]; exact beq_self_eq_true a)

theorem goodValueE_setV (es : List (String × Value)) (k : String) (v : Value)
    (hes : goodValueE es = true) (hv : goodValue v = true) :
    goodValueE (setV es k v) = true := by
  induction es with
  | nil => simp [setV, goodValueE, goodValueL, hv]
  | cons e rest ih =>
    obtain ⟨a, b⟩ := e
    simp only [goodValueE, Bool.and_eq_true] at hes
    by_cases hak : (a == k) = true
    · simp only [setV, hak, if_true, goodValueE, Bool.and_eq_true]
      exact ⟨hv, hes.2⟩
    · simp only [setV, hak, Bool.false_eq_true, if_false, goodValueE, Bool.and_eq_true]
      exact ⟨hes.1, ih hes.2⟩

mutual

theorem construct_good : ∀ (n : YamlNode) (v : Value),
    construct n = .ok v → goodValue v = true
  | .scalar t s, v, h => by
    simp only [construct] at h
    split at h
    · cases h; rfl
    · split at h
      · split at h
        · cases h; rfl
        · cases h
      · split at h
        · cases h; rfl
        · split at h
          · cases h; rfl
          · split at h
            · cases h
              simp only [goodValue]
              assumption
            · split at h
              · cases h; rfl
              · cases h
  | .seq t items, v, h => by
    simp only [construct] at h
    split at h
    · split at h
      · cases h
        simp only [goodValue]
        exact constructList_good items _ (by assumption)
      · cases h
    · split at h
      · split at h
        · cases h
          simp only [goodValue]
          exact constructList_good items _ (by assumption)
        · cases h
      · split at h
        · cases h
          simp only [goodValue]
          assumption
        · split at h
          · cases h; rfl
          · cases h
  | .map t entries, v, h => by
    simp only [construct] at h
    split at h
    · split at h
      · cases h
        simp only [goodValue]
        exact constructMappingAux_good entries [] _ (by rfl) (by assumption)
      · cases h
    · split at h
      · cases h
      · split at h
        · cases h
          simp only [goodValue]
          assumption
        · split at h
          · cases h; rfl
          · cases h

theorem constructList_good : ∀ (l : List YamlNode) (vs : List Value),
    constructList l = .ok vs → goodValueL vs = true
  | [], vs, h => by cases h; rfl
  | x :: xs, vs, h => by
    simp only [constructList] at h
    split at h
    · split at h
      · cases h
        simp only [goodValueL, Bool.and_eq_true]
        exact ⟨construct_good x _ (by assumption), constructList_good xs _ (by assumption)⟩
      · cases h
    · cases h

theorem constructMappingAux_good :
    ∀ (l : List (YamlNode × YamlNode)) (acc : List (String × Value)) (es : List (String × Value)),
      (keysNodup acc && goodValueE acc) = true →
      constructMappingAux acc l = .ok es → (keysNodup es && goodValueE es) = true
  | [], acc, es, hacc, h => by cases h; exact hacc
  | (kn, vn) :: rest, acc, es, hacc, h => by
    simp only [constructMappingAux] at h
    split at h
    · split at h
      · rw [Bool.and_eq_true] at hacc
        refine constructMappingAux_good rest (setV acc _ _) es ?_ h
        rw [Bool.and_eq_true]
        exact ⟨keysNodup_setV acc _ _ hacc.1,
          goodValueE_setV acc _ _ hacc.2 (construct_good vn _ (by assumption))⟩
      · cases h
    · cases h
    · cases h

end

mutual

/-- A document contains only tags the script's codec recognizes: the
standard `str`/`bool`/`null`/`seq`/`map` tags (bool scalars with a
resolvable literal, mapping keys plain strings), the `!ENV` tag with a
scalar or sequence payload, and `tag:yaml.org,2002:python/name:`-
prefixed tags.  Follows the dispatch order of `construct`. -/
def recognizedDoc : YamlNode → Bool
  | .scalar t v =>
    if t == strTag then true
    else if t == boolTag then (boolValue (pyLower v)).isSome
    else if t == nullTag then true
    else if t == "!ENV" then true
    else strIsPrefix pythonNamePrefix t
  | .seq t items =>
    if t == seqTag then recognizedDocL items
    else if t == "!ENV" then recognizedDocL items
    else strIsPrefix pythonNamePrefix t
  | .map t entries =>
    if t == mapTag then recognizedDocE entries
    else if t == "!ENV" then false
    else strIsPrefix pythonNamePrefix t

def recognizedDocL : List YamlNode → Bool
  | [] => true
  | x :: xs => recognizedDoc x && recognizedDocL xs

def recognizedDocE : List (YamlNode × YamlNode) → Bool
  | [] => true
  | (kn, vn) :: rest =>
    (match kn with
     | .scalar t _ => t == strTag
     | _ => false) && recognizedDoc vn && recognizedDocE rest

end

mutual

theorem recognized_construct_ok : ∀ (n : YamlNode), recognizedDoc n = true →
    ∃ v, construct n = .ok v
  | .scalar t s, h => by
    by_cases h1 : (t == strTag) = true
    · exact ⟨.str s, by simp [construct, h1]⟩
    · by_cases h2 : (t == boolTag) = true
      · simp only [recognizedDoc, h1, h2, Bool.false_eq_true, if_false, if_true] at h
        obtain ⟨b, hb⟩ := Option.isSome_iff_exists.mp h
        exact ⟨.bool b, by simp [construct, h1, h2, hb]⟩
      · by_cases h3 : (t == nullTag) = true
        · exact ⟨.null, by simp [construct, h1, h2, h3]⟩
        · by_cases h4 : (t == "!ENV") = true
          · exact ⟨.envStr s, by simp [construct, h1, h2, h3, h4]⟩
          · simp only [recognizedDoc, h1, h2, h3, h4, Bool.false_eq_true, if_false] at h
            exact ⟨.pythonName (strDropPrefix pythonNamePrefix t),
              by simp [construct, h1, h2, h3, h4, h,
                isOtherStdTag_eq_false_of_prefix t h]⟩
  | .seq t items, h => by
    by_cases h1 : (t == seqTag) = true
    · simp only [recognizedDoc, h1, if_true] at h
      obtain ⟨vs, hvs⟩ := recognizedL_constructList_ok items h
      exact ⟨.list vs, by simp [construct, h1, hvs]⟩
    · by_cases h2 : (t == "!ENV") = true
      · simp only [recognizedDoc, h1, h2, Bool.false_eq_true, if_false, if_true] at h
        obtain ⟨vs, hvs⟩ := recognizedL_constructList_ok items h
        exact ⟨.envList vs, by simp [construct, h1, h2, hvs]⟩
      · simp only [recognizedDoc, h1, h2, Bool.false_eq_true, if_false] at h
        exact ⟨.pythonName (strDropPrefix pythonNamePrefix t),
          by simp [construct, h1, h2, h,
            isOtherStdTag_eq_false_of_prefix t h]⟩
  | .map t entries, h => by
    by_cases h1 : (t == mapTag) = true
    · simp only [recognizedDoc, h1, if_true] at h
      obtain ⟨es, hes⟩ := recognizedE_constructMappingAux_ok entries [] h
      exact ⟨.dict es, by simp [construct, h1, hes]⟩
    · by_cases h2 : (t == "!ENV") = true
      · simp only [recognizedDoc, h1, h2, Bool.false_eq_true, if_false, if_true] at h
      · simp only [recognizedDoc, h1, h2, Bool.false_eq_true, if_false] at h
        exact ⟨.pythonName (strDropPrefix pythonNamePrefix t),
          by simp [construct, h1, h2, h,
            isOtherStdTag_eq_false_of_prefix t h]⟩

theorem recognizedL_constructList_ok : ∀ (l : List YamlNode),
    recognizedDocL l = true → ∃ vs, constructList l = .ok vs
  | [], _ => ⟨[], rfl⟩
  | x :: xs, h => by
    simp only [recognizedDocL, Bool.and_eq_true] at h
    obtain ⟨v, hv⟩ := recognized_construct_ok x h.1
    obtain ⟨vs, hvs⟩ := recognizedL_constructList_ok xs h.2
    exact ⟨v :: vs, by simp only [constructList, hv, hvs]⟩

theorem recognizedE_constructMappingAux_ok : ∀ (l : List (YamlNode × YamlNode))
    (acc : List (String × Value)),
    recognizedDocE l = true → ∃ es, constructMappingAux acc l = .ok es
  | [], acc, _ => ⟨acc, rfl⟩
  | (kn, vn) :: rest, acc, h => by
    simp only [recognizedDocE, Bool.and_eq_true] at h
    obtain ⟨⟨hk, hvr⟩, hrest⟩ := h
    obtain ⟨v, hv⟩ := recognized_construct_ok vn hvr
    match kn, hk with
    | .scalar t s, hk =>
      have hks : construct (.scalar t s) = .ok (.str s) := by
        rw [eq_of_beq hk]
        exact construct_scalar_strTag s
      obtain ⟨es, hes⟩ := recognizedE_constructMappingAux_ok rest (setV acc s v) hrest
      exact ⟨es, by simp only [constructMappingAux, hks, hv, hes]⟩

end

/-! ## Exclusion derivation and configuration rewriting -/

mutual

/-- The function `get_all_paths(nav_item)`: every string reachable under a nav item,
depth-first, children (and all dict values, in insertion order) in
original order. -/
def getAllPaths : Nav → List String
  | .str s => [s]
  | .list xs => getAllPathsL xs
  | .map _ v tail => getAllPaths v ++ getAllPathsP tail

def getAllPathsL : List Nav → List String
  | [] => []
  | x :: xs => getAllPaths x ++ getAllPathsL xs

def getAllPathsP : List (String × Nav) → List String
  | [] => []
  | (_, v) :: xs => getAllPaths v ++ getAllPathsP xs

end

/-- The `kept_roots` derivation of `main`: for each kept path `p`,
split on `"/"` and, when the split is nonempty (it always is), add its
first segment to the set.  Modelled as the list of contributed roots;
the code's `set` only ever consumes it through membership tests. -/
def keptRootsOf (paths : List String) : List String :=
  paths.foldr
    (fun p acc =>
      let parts := pySplitSlash p
      if parts.length > 0 then parts.headI :: acc else acc)
    []

/-- The directories the script always keeps. -/
def alwaysKeep : List String :=
  ["_snippets", "javascripts", "static", "stylesheets", "overrides", "templates"]

/-- The roots selected for exclusion: every element of `all_roots` that
is neither a kept root nor an always-keep directory (the filter of the
`to_exclude` list comprehension, before the glob suffix is attached). -/
def toExcludeRoots (allRoots keptRoots alwaysKeepL : List String) : List String :=
  allRoots.filter (fun root => !keptRoots.contains root && !alwaysKeepL.contains root)

/-- The list `to_exclude`: the excluded roots with the `"/**/*"` glob suffix. -/
def toExcludeGlobs (allRoots keptRoots alwaysKeepL : List String) : List String :=
  (toExcludeRoots allRoots keptRoots alwaysKeepL).map (fun root => root ++ "/**/*")

/-- The list `regex_patterns`: each glob pattern `root/**/*` is turned into
`^root/.*` by splitting on `"/"` and taking the first segment. -/
def regexPatterns (toExclude : List String) : List String :=
  toExclude.map (fun pattern => "^" ++ (pySplitSlash pattern).headI ++ "/.*")

/-- Is a plugin entry the `exclude` plugin (`isinstance(p, dict) and
"exclude" in p`)? -/
def isExcludePlugin : Value → Bool
  | .dict es => hasKeyV es "exclude"
  | _ => false

/-- The fresh `{"exclude": {"regex": patterns}}` entry built when no
exclude plugin exists. -/
def newExcludeEntry (patterns : List String) : Value :=
  .dict [("exclude", .dict [("regex", .list (patterns.map Value.str))])]

/-- Merge `regex_patterns` into a found exclude-plugin entry: create
`exclude["regex"] = []` if the key is absent, then `extend` the list
with the new patterns.  A non-dict `exclude` value or non-list `regex`
value makes the Python code raise (`TypeError`/`AttributeError`),
modelled as `Except.error`. -/
def mergeIntoEntry (p : Value) (patterns : List String) : Except String Value :=
  match p with
  | .dict es =>
    match lookupV es "exclude" with
    | some (.dict fs) =>
      let fs1 := if hasKeyV fs "regex" then fs else setV fs "regex" (.list [])
      match lookupV fs1 "regex" with
      | some (.list old) =>
        .ok (.dict (setV es "exclude"
          (.dict (setV fs1 "regex" (.list (old ++ patterns.map Value.str))))))
      | _ => .error "the regex value of the exclude plugin is not a list"
    | some _ => .error "the exclude value of the exclude plugin is not a mapping"
    | none => .error "unreachable: entry has no exclude key"
  | _ => .error "unreachable: entry is not a dict"

/-- The loop body of the exclusion merge once an exclude entry was
found: modify the first matching entry in place, leave the rest. -/
def replaceFirstExclude (patterns : List String) : List Value → Except String (List Value)
  | [] => .ok []
  | p :: rest =>
    if isExcludePlugin p then
      match mergeIntoEntry p patterns with
      | .ok p1 => .ok (p1 :: rest)
      | .error e => .error e
    else
      match replaceFirstExclude patterns rest with
      | .ok rest1 => .ok (p :: rest1)
      | .error e => .error e

/-- The exclusion-plugin merge of `main`: find the first plugin entry
that is a dict with an `exclude` key; append the regex patterns to it
if found, otherwise insert a fresh exclude entry at index 0. -/
def mergeExcludePlugin (plugins : List Value) (patterns : List String) :
    Except String (List Value) :=
  if plugins.any isExcludePlugin then replaceFirstExclude patterns plugins
  else .ok (newExcludeEntry patterns :: plugins)

/-- Is a plugin entry the `mkdocstrings` plugin? -/
def isMkdocstringsPlugin : Value → Bool
  | .dict es => hasKeyV es "mkdocstrings"
  | _ => false

/-- The mkdocstrings suppression applied to the found plugin entry.

Mirrors the Python statement for statement, including its aliasing
behaviour: `handlers`, `python_handler` and `options` are fetched with
`.get(key, {})`, so when a key is absent the fetched dict is a fresh
object not attached to the document and mutations to it are lost; and
`handlers["python"]["import"] = []` raises `KeyError` when `handlers`
has no `"python"` key.  Non-dict values along the way make the Python
`.get` / item assignment raise (`AttributeError`/`TypeError`), all
modelled as `Except.error`. -/
def suppressEntry (p : Value) : Except String Value :=
  match p with
  | .dict es =>
    match lookupV es "mkdocstrings" with
    | some (.dict mk) =>
      let handlersAttached := hasKeyV mk "handlers"
      match (lookupV mk "handlers").getD (.dict []) with
      | .dict hs =>
        let pyAttached := hasKeyV hs "python"
        match (lookupV hs "python").getD (.dict []) with
        | .dict ps =>
          let optAttached := hasKeyV ps "options"
          match (lookupV ps "options").getD (.dict []) with
          | .dict os =>
            let os1 := if hasKeyV os "preload_modules"
                       then setV os "preload_modules" (.list []) else os
            let os2 := setV os1 "signature_crossrefs" (.bool false)
            let os3 := setV os2 "show_inheritance_diagram" (.bool false)
            let os4 := setV os3 "allow_inspection" (.bool false)
            let os5 := setV os4 "enable_inventory" (.bool false)
            let ps1 := if optAttached then setV ps "options" (.dict os5) else ps
            if pyAttached then
              let ps2 := setV ps1 "import" (.list [])
              let hs1 := setV hs "python" (.dict ps2)
              let mk1 := if handlersAttached then setV mk "handlers" (.dict hs1) else mk
              .ok (.dict (setV es "mkdocstrings" (.dict mk1)))
            else .error "KeyError: python"
          | _ => .error "the options value is not a mapping"
        | _ => .error "the python handler value is not a mapping"
      | _ => .error "the handlers value is not a mapping"
    | some _ => .error "the mkdocstrings value is not a mapping"
    | none => .error "unreachable: entry has no mkdocstrings key"
  | _ => .error "unreachable: entry is not a dict"

/-- The mkdocstrings loop of `main`: rewrite the first plugin entry
that is a dict with a `mkdocstrings` key (then `break`); leave every
other entry, and the whole list when no entry matches, unchanged. -/
def suppressMkdocstrings : List Value → Except String (List Value)
  | [] => .ok []
  | p :: rest =>
    if isMkdocstringsPlugin p then
      match suppressEntry p with
      | .ok p1 => .ok (p1 :: rest)
      | .error e => .error e
    else
      match suppressMkdocstrings rest with
      | .ok rest1 => .ok (p :: rest1)
      | .error e => .error e

/-- Does a top-level nav item survive into `new_nav` before the found
section is appended (`"get started" in key.lower()` or the value is the
string `"index.md"`)? -/
def keepAlwaysEntry : Nav → Bool
  | .map k v _ =>
    strContains (pyLower k) "get started" ||
    (match v with | .str s => s == "index.md" | _ => false)
  | _ => false

/-- The exclusion set of one run: empty when the docs directory listing
is unavailable, otherwise the filtered roots. -/
def exclusionSet (listing : Option (List String)) (keptRoots : List String) : List String :=
  match listing with
  | none => []
  | some allRoots => toExcludeRoots allRoots keptRoots alwaysKeep

/-- The transformation core of `main`, from the validated `nav` value
to the document data that is written out: build `new_nav` (always-kept
entries in original order, then the found section), fail with the
script's message when the section is not found, derive `kept_roots`
from `get_all_paths(new_nav)`, skip the whole exclusion block when the
docs directory listing is unavailable and otherwise merge the regex
patterns when `to_exclude` is nonempty, then apply the mkdocstrings
suppression.  `Except.error` is `sys.exit` / an uncaught exception: no
output is written.  (File I/O, argument parsing, alias resolution and
the final `yaml.dump` around this core are glue; a missing `plugins`
key behaves as the empty plugin list here, which `main` only ever
extends via `config["plugins"] = []`.) -/
def serveSubsetCore (nav : List Nav) (plugins : List Value)
    (listing : Option (List String)) (target : String) :
    Except String (List Nav × List Value) :=
  let kept := nav.filter keepAlwaysEntry
  match findSection nav target with
  | none => .error ("Error: No section matching \x27" ++ target ++ "\x27 found in nav.")
  | some sec =>
    let newNav := kept ++ [sec]
    let keptRoots := keptRootsOf (getAllPathsL newNav)
    let step1 : Except String (List Value) :=
      match listing with
      | none => .ok plugins
      | some allRoots =>
        let toExclude := toExcludeGlobs allRoots keptRoots alwaysKeep
        if toExclude.isEmpty then .ok plugins
        else mergeExcludePlugin plugins (regexPatterns toExclude)
    match step1 with
    | .ok plugins1 =>
      match suppressMkdocstrings plugins1 with
      | .ok plugins2 => .ok (newNav, plugins2)
      | .error e => .error e
    | .error e => .error e

/-! ## Helper lemmas -/

theorem lookupV_some_hasKeyV (es : List (String × Value)) (k : String) (v : Value)
    (h : lookupV es k = some v) : hasKeyV es k = true := by
  induction es with
  | nil => simp [lookupV] at h
  | cons e rest ih =>
    simp only [lookupV, List.find?] at h
    simp only [hasKeyV, List.any_cons]
    cases hk : (e.1 == k) with
    | true => simp
    | false =>
      rw [hk] at h
      simp only [Bool.false_or]
      exact ih (by simpa [lookupV] using h)

theorem lookupV_setV_self (es : List (String × Value)) (k : String) (v : Value) :
    lookupV (setV es k v) k = some v := by
  induction es with
  | nil => simp [setV, lookupV, List.find?]
  | cons e rest ih =>
    obtain ⟨a, b⟩ := e
    by_cases hak : (a == k) = true
    · simp [setV, hak, lookupV, List.find?]
    · simp only [setV, hak, Bool.false_eq_true, if_false]
      simp only [lookupV, List.find?, hak]
      simpa [lookupV] using ih

theorem lookupV_setV_other (es : List (String × Value)) (k q : String) (v : Value)
    (hne : (k == q) = false) : lookupV (setV es k v) q = lookupV es q := by
  induction es with
  | nil => simp [setV, lookupV, List.find?, hne]
  | cons e rest ih =>
    obtain ⟨a, b⟩ := e
    by_cases hak : (a == k) = true
    · rw [eq_of_beq hak]
      simp [setV, lookupV, List.find?, hne]
    · simp only [setV, hak, Bool.false_eq_true, if_false]
      simp only [lookupV, List.find?] at ih ⊢
      cases haq : (a == q) with
      | true => simp
      | false => simpa using ih

theorem pySplitSlash_ne_nil (s : String) : pySplitSlash s ≠ [] := by
  simp only [pySplitSlash, ne_eq, List.map_eq_nil_iff]
  rw [List.splitOn]
  exact List.splitOnP_ne_nil _ s.data

/-- The BFS dequeue order starts with the initial queue itself: with the
queue seeded with all top-level items, every top-level item is dequeued
before any enqueued child. -/
theorem bfsSeqAux_starts_with_queue : ∀ (xs ys : List Nav), xs <+: bfsSeqAux (xs ++ ys)
  | [], ys => List.nil_prefix
  | .str s :: xs, ys => by
    rw [List.cons_append, bfsSeqAux, List.cons_prefix_cons]
    exact ⟨rfl, bfsSeqAux_starts_with_queue xs ys⟩
  | .list l :: xs, ys => by
    rw [List.cons_append, bfsSeqAux, List.cons_prefix_cons]
    exact ⟨rfl, bfsSeqAux_starts_with_queue xs ys⟩
  | .map k v tail :: xs, ys => by
    rw [List.cons_append, bfsSeqAux, List.cons_prefix_cons]
    refine ⟨rfl, ?_⟩
    rw [List.append_assoc]
    exact bfsSeqAux_starts_with_queue xs (ys ++ childQueue v)
termination_by xs ys => navSizeL (xs ++ ys)
decreasing_by
  · simp [navSizeL_append, navSizeL]; have := navSize_pos (.str s); omega
  · simp [navSizeL_append, navSizeL]; have := navSize_pos (.list l); omega
  · simp [navSizeL_append, navSizeL]
    have := navSizeL_childQueue_lt k v tail
    omega

/-! ## Claim theorems -/

/-- C1: `find_section` returns the first item of the FIFO breadth-first
dequeue order (`bfsSeq`, which begins with all top-level items) that is
a mapping whose first key matches the lowercased target; in particular
a Group labeled "X" at depth 1 wins over a Group labeled "X" at depth 3
that occurs earlier in depth-first order. -/
theorem find_section_bfs_first_match :
    (∀ (nav : List Nav) (target : String),
      findSection nav target = (bfsSeq nav).find? (isMatch (pyLower target)))
    ∧ (∀ (nav : List Nav), nav <+: bfsSeq nav)
    ∧ findSection
        [.map "A" (.list [.map "B" (.list [.map "X" (.str "deep.md") []]) []]) [],
         .map "X" (.str "shallow.md") []] "X"
      = some (.map "X" (.str "shallow.md") []) := by
  refine ⟨?_, ?_, ?_⟩
  · intro nav target
    exact findSectionAux_eq_find?_bfsSeqAux (pyLower target) nav
  · intro nav
    simpa using bfsSeqAux_starts_with_queue nav []
  · simp [findSection, findSectionAux, childQueue, pyLower, lowerChar]

/-- The tag of the root node of a document. -/
def topTag : YamlNode → String
  | .scalar t _ => t
  | .seq t _ => t
  | .map t _ => t

/-- C2 (counterexample): decoding a document carrying the unrecognized
tag `!FOO` does not produce any value — the loader raises a
`ConstructorError` (there is no `TaggedScalar` fallback in the code). -/
theorem decode_unknown_tag_fails_cex :
    construct (.scalar "!FOO" "bar") =
      .error "could not determine a constructor for the tag !FOO" := rfl

/-- C2 (amended): for every document whose root tag is none of the
twelve standard tags `SafeConstructor` registers
(str/bool/null/seq/map/int/float/binary/timestamp/omap/pairs/set),
nor `!ENV`, nor `python/name:`-prefixed, decoding fails with a
constructor error naming the tag (pyyaml's `construct_undefined`),
instead of resolving to a tagged fallback value. -/
theorem decode_unrecognized_tag_errors (n : YamlNode)
    (h1 : (topTag n == strTag) = false) (h2 : (topTag n == boolTag) = false)
    (h3 : (topTag n == nullTag) = false) (h4 : (topTag n == seqTag) = false)
    (h5 : (topTag n == mapTag) = false) (h6 : (topTag n == "!ENV") = false)
    (h7 : (topTag n == intTag) = false) (h8 : (topTag n == floatTag) = false)
    (h9 : (topTag n == binaryTag) = false) (h10 : (topTag n == timestampTag) = false)
    (h11 : (topTag n == omapTag) = false) (h12 : (topTag n == pairsTag) = false)
    (h13 : (topTag n == setTag) = false)
    (h14 : strIsPrefix pythonNamePrefix (topTag n) = false) :
    construct n = .error ("could not determine a constructor for the tag " ++ topTag n) := by
  cases n <;> simp_all [construct, topTag, isOtherStdTag]

theorem decode_unrecognized_tag_errors_witness :
    construct (.seq "!FOO2" []) =
      .error "could not determine a constructor for the tag !FOO2" :=
  decode_unrecognized_tag_errors (.seq "!FOO2" [])
    rfl rfl rfl rfl rfl rfl rfl rfl rfl rfl rfl rfl rfl rfl

/-- C3: every document containing only recognized tags decodes
successfully, and re-decoding its encoding yields a structurally equal
value (tags, payload shapes and mapping key order included). -/
theorem decode_encode_decode_roundtrip (D : YamlNode) (h : recognizedDoc D = true) :
    ∃ v, construct D = .ok v ∧ construct (represent v) = .ok v := by
  obtain ⟨v, hv⟩ := recognized_construct_ok D h
  exact ⟨v, hv, construct_represent v (construct_good D v hv)⟩

theorem decode_encode_decode_roundtrip_witness :
    recognizedDoc
      (.map mapTag
        [(.scalar strTag "enabled", .seq "!ENV" [.scalar strTag "FLAG", .scalar boolTag "false"]),
         (.scalar strTag "emoji", .scalar "tag:yaml.org,2002:python/name:material.extensions.emoji.to_svg" "")])
      = true
    ∧ ∃ v, construct
        (.map mapTag
          [(.scalar strTag "enabled", .seq "!ENV" [.scalar strTag "FLAG", .scalar boolTag "false"]),
           (.scalar strTag "emoji", .scalar "tag:yaml.org,2002:python/name:material.extensions.emoji.to_svg" "")])
        = .ok v ∧ construct (represent v) = .ok v :=
  ⟨rfl, decode_encode_decode_roundtrip _ rfl⟩

/-- C4: the derived exclusion roots are exactly
`all_roots − kept_roots − always_keep`: membership is equivalent to
being an available root that is neither kept nor always kept; the
concrete instance {a,b,c} − {b} − {} = {a,c} holds; and an always-keep
member is never excluded. -/
theorem exclusions_all_minus_kept_minus_always :
    (∀ (allRoots keptRoots alwaysL : List String) (r : String),
      r ∈ toExcludeRoots allRoots keptRoots alwaysL ↔
        (r ∈ allRoots ∧ r ∉ keptRoots ∧ r ∉ alwaysL))
    ∧ toExcludeRoots ["a", "b", "c"] ["b"] [] = ["a", "c"]
    ∧ (∀ (allRoots keptRoots alwaysL : List String) (r : String),
        r ∈ alwaysL → r ∉ toExcludeRoots allRoots keptRoots alwaysL) := by
  have hmem : ∀ (allRoots keptRoots alwaysL : List String) (r : String),
      r ∈ toExcludeRoots allRoots keptRoots alwaysL ↔
        (r ∈ allRoots ∧ r ∉ keptRoots ∧ r ∉ alwaysL) := by
    intro allRoots keptRoots alwaysL r
    simp [toExcludeRoots, List.mem_filter, List.elem_iff]
  refine ⟨hmem, by rfl, ?_⟩
  intro allRoots keptRoots alwaysL r hr hmem2
  exact ((hmem allRoots keptRoots alwaysL r).mp hmem2).2.2 hr

theorem exclusions_always_keep_witness :
    "static" ∈ (["static"] : List String) ∧
      "static" ∉ toExcludeRoots ["static", "y"] [] ["static"] :=
  ⟨by decide,
    exclusions_all_minus_kept_minus_always.2.2 ["static", "y"] [] ["static"] "static"
      (by decide)⟩

/-- C8 (counterexample): an empty path is not ignored — it contributes
the empty string to the kept-roots set (`"".split("/") == [""]`, so the
`len(parts) > 0` guard passes). -/
theorem kept_roots_empty_path_cex :
    keptRootsOf [""] = [""] ∧ keptRootsOf [""] ≠ [] := ⟨rfl, by decide⟩

/-- C8 (amended): the kept-roots set contains exactly the first
`"/"`-segment of every path in the sequence — including the empty
string for an empty path; the `len(parts) > 0` guard never fires
(`split` never returns an empty list), and no path is fatal. -/
theorem kept_roots_first_segments (paths : List String) (r : String) :
    r ∈ keptRootsOf paths ↔ ∃ p ∈ paths, r = (pySplitSlash p).headI := by
  induction paths with
  | nil => simp [keptRootsOf]
  | cons p rest ih =>
    simp only [keptRootsOf, List.foldr_cons] at ih ⊢
    rw [if_pos (by
      have := pySplitSlash_ne_nil p
      cases hp : pySplitSlash p with
      | nil => exact absurd hp this
      | cons a l => simp)]
    simp only [List.mem_cons, ih]
    constructor
    · rintro (h | h)
      · exact ⟨p, Or.inl rfl, h⟩
      · obtain ⟨q, hq, hr⟩ := h
        exact ⟨q, Or.inr hq, hr⟩
    · rintro ⟨q, hq | hq, hr⟩
      · subst hq
        exact Or.inl hr
      · exact Or.inr ⟨q, hq, hr⟩

/-- C9: when no Group in the forest matches the target, the core fails
with the script's message naming the attempted label, and no output is
produced (`sys.exit(1)` before the output file is written). -/
theorem not_found_is_fatal (nav : List Nav) (plugins : List Value)
    (listing : Option (List String)) (target : String)
    (h : findSection nav target = none) :
    serveSubsetCore nav plugins listing target =
      .error ("Error: No section matching \x27" ++ target ++ "\x27 found in nav.") := by
  simp [serveSubsetCore, h]

theorem not_found_is_fatal_witness :
    serveSubsetCore [Nav.str "index.md"] [] none "langgraph" =
      .error "Error: No section matching \x27langgraph\x27 found in nav." :=
  not_found_is_fatal [Nav.str "index.md"] [] none "langgraph"
    (by simp [findSection, findSectionAux, pyLower, lowerChar])

/-- C10: when the `mkdocstrings` plugin entry is present but its
`handlers` mapping lacks a `python` key (or lacks `handlers`
entirely), the suppression step raises `KeyError` at
`handlers["python"]["import"] = []` instead of completing — the
no-error guarantee only covers an entirely absent plugin entry. -/
theorem mkdocstrings_missing_python_raises :
    suppressMkdocstrings
        [.dict [("mkdocstrings", .dict [("handlers", .dict [])])]]
      = .error "KeyError: python"
    ∧ suppressMkdocstrings [.dict [("mkdocstrings", .dict [])]]
      = .error "KeyError: python" := ⟨rfl, rfl⟩

theorem mergeIntoEntry_shape (es fs : List (String × Value)) (old : List Value)
    (patterns : List String)
    (hfs : lookupV es "exclude" = some (.dict fs))
    (hre : lookupV fs "regex" = some (.list old)) :
    mergeIntoEntry (.dict es) patterns =
      .ok (.dict (setV es "exclude"
        (.dict (setV fs "regex" (.list (old ++ patterns.map Value.str)))))) := by
  simp only [mergeIntoEntry, hfs, lookupV_some_hasKeyV fs "regex" _ hre, if_true, hre]

theorem replaceFirstExclude_found (patterns : List String) :
    ∀ (pre post : List Value) (p p1 : Value),
      (∀ q ∈ pre, isExcludePlugin q = false) →
      isExcludePlugin p = true →
      mergeIntoEntry p patterns = .ok p1 →
      replaceFirstExclude patterns (pre ++ p :: post) = .ok (pre ++ p1 :: post)
  | [], post, p, p1, _, hp, hm => by
    simp only [List.nil_append, replaceFirstExclude, hp, if_true, hm]
  | q :: pre, post, p, p1, hpre, hp, hm => by
    have hq : isExcludePlugin q = false := hpre q (by simp)
    simp only [List.cons_append, replaceFirstExclude, hq, Bool.false_eq_true, if_false,
      List.append_eq]
    rw [replaceFirstExclude_found patterns pre post p p1
      (fun x hx => hpre x (by simp [hx])) hp hm]

/-- C5: with a non-empty exclusion set, the merge appends the new
`^root/.*` patterns to the pattern list of the first existing
exclude-plugin entry — every pre-existing pattern survives in its
original position, every other plugin entry and the entry's other keys
are untouched — and when no exclude entry exists, a fresh one is
inserted at index 0 with all original entries following in order. -/
theorem exclude_merge_appends_or_inserts_at_head :
    (∀ (plugins : List Value) (patterns : List String),
      (∀ p ∈ plugins, isExcludePlugin p = false) →
      mergeExcludePlugin plugins patterns = .ok (newExcludeEntry patterns :: plugins))
    ∧ (∀ (pre post : List Value) (es fs : List (String × Value)) (old : List Value)
        (patterns : List String),
        (∀ p ∈ pre, isExcludePlugin p = false) →
        lookupV es "exclude" = some (.dict fs) →
        lookupV fs "regex" = some (.list old) →
        mergeExcludePlugin (pre ++ .dict es :: post) patterns =
          .ok (pre ++
            .dict (setV es "exclude"
              (.dict (setV fs "regex" (.list (old ++ patterns.map Value.str))))) :: post)) := by
  constructor
  · intro plugins patterns hnone
    rw [mergeExcludePlugin, if_neg ?_]
    simp only [List.any_eq_true, not_exists]
    intro x
    rintro ⟨hx, hpx⟩
    rw [hnone x hx] at hpx
    cases hpx
  · intro pre post es fs old patterns hpre hfs hre
    have hentry : isExcludePlugin (.dict es) = true := by
      simp only [isExcludePlugin]
      exact lookupV_some_hasKeyV es "exclude" _ hfs
    rw [mergeExcludePlugin, if_pos ?_]
    · exact replaceFirstExclude_found patterns pre post _ _ hpre hentry
        (mergeIntoEntry_shape es fs old patterns hfs hre)
    · rw [List.any_append]
      simp [hentry]

theorem exclude_merge_witness :
    mergeExcludePlugin
        [.dict [("pluginA", .null)],
         .dict [("exclude", .dict [("regex", .list [.str "^foo/.*"])])],
         .dict [("pluginB", .null)]]
        ["^bar/.*"]
      = .ok
        [.dict [("pluginA", .null)],
         .dict [("exclude", .dict [("regex", .list [.str "^foo/.*", .str "^bar/.*"])])],
         .dict [("pluginB", .null)]] :=
  exclude_merge_appends_or_inserts_at_head.2
    [.dict [("pluginA", .null)]] [.dict [("pluginB", .null)]]
    [("exclude", .dict [("regex", .list [.str "^foo/.*"])])]
    [("regex", .list [.str "^foo/.*"])] [.str "^foo/.*"] ["^bar/.*"]
    (by decide) rfl rfl

theorem suppress_no_entry :
    ∀ (plugins : List Value), (∀ p ∈ plugins, isMkdocstringsPlugin p = false) →
      suppressMkdocstrings plugins = .ok plugins
  | [], _ => rfl
  | p :: rest, h => by
    have hp : isMkdocstringsPlugin p = false := h p (by simp)
    simp only [suppressMkdocstrings, hp, Bool.false_eq_true, if_false]
    rw [suppress_no_entry rest (fun x hx => h x (by simp [hx]))]

theorem suppressEntry_full_shape (es mk hs ps os : List (String × Value))
    (hmk : lookupV es "mkdocstrings" = some (.dict mk))
    (hhs : lookupV mk "handlers" = some (.dict hs))
    (hps : lookupV hs "python" = some (.dict ps))
    (hos : lookupV ps "options" = some (.dict os)) :
    ∃ os5 : List (String × Value),
      suppressEntry (.dict es) =
        .ok (.dict (setV es "mkdocstrings"
          (.dict (setV mk "handlers"
            (.dict (setV hs "python"
              (.dict (setV (setV ps "options" (.dict os5)) "import" (.list [])))))))))
      ∧ lookupV os5 "signature_crossrefs" = some (.bool false)
      ∧ lookupV os5 "show_inheritance_diagram" = some (.bool false)
      ∧ lookupV os5 "allow_inspection" = some (.bool false)
      ∧ lookupV os5 "enable_inventory" = some (.bool false)
      ∧ (hasKeyV os "preload_modules" = true →
          lookupV os5 "preload_modules" = some (.list [])) := by
  refine ⟨setV (setV (setV (setV
      (if hasKeyV os "preload_modules" then setV os "preload_modules" (.list []) else os)
      "signature_crossrefs" (.bool false))
      "show_inheritance_diagram" (.bool false))
      "allow_inspection" (.bool false))
      "enable_inventory" (.bool false), ?_, ?_, ?_, ?_, ?_, ?_⟩
  · simp only [suppressEntry, hmk, hhs, hps, hos,
      lookupV_some_hasKeyV mk "handlers" _ hhs,
      lookupV_some_hasKeyV hs "python" _ hps,
      lookupV_some_hasKeyV ps "options" _ hos,
      Option.getD_some, if_true]
  · rw [lookupV_setV_other _ _ _ _ (by decide),
      lookupV_setV_other _ _ _ _ (by decide),
      lookupV_setV_other _ _ _ _ (by decide),
      lookupV_setV_self]
  · rw [lookupV_setV_other _ _ _ _ (by decide),
      lookupV_setV_other _ _ _ _ (by decide),
      lookupV_setV_self]
  · rw [lookupV_setV_other _ _ _ _ (by decide), lookupV_setV_self]
  · rw [lookupV_setV_self]
  · intro hpl
    rw [lookupV_setV_other _ _ _ _ (by decide),
      lookupV_setV_other _ _ _ _ (by decide),
      lookupV_setV_other _ _ _ _ (by decide),
      lookupV_setV_other _ _ _ _ (by decide),
      if_pos hpl, lookupV_setV_self]

theorem suppress_found (pre post : List Value) (p p1 : Value)
    (hpre : ∀ q ∈ pre, isMkdocstringsPlugin q = false)
    (hp : isMkdocstringsPlugin p = true)
    (hm : suppressEntry p = .ok p1) :
    suppressMkdocstrings (pre ++ p :: post) = .ok (pre ++ p1 :: post) := by
  induction pre with
  | nil => simp only [List.nil_append, suppressMkdocstrings, hp, if_true, hm]
  | cons q rest ih =>
    have hq : isMkdocstringsPlugin q = false := hpre q (by simp)
    simp only [List.cons_append, suppressMkdocstrings, hq, Bool.false_eq_true, if_false,
      List.append_eq]
    rw [ih (fun x hx => hpre x (by simp [hx]))]

/-- C6 (counterexample): a document whose `mkdocstrings` plugin entry
has a `python` handler but no `options` mapping completes without
error, yet none of the four suppression flags is persisted — the flags
are written to a detached dict fetched by `.get("options", {})`; only
`import` is cleared. -/
theorem mkdocstrings_flags_dropped_when_options_missing :
    suppressMkdocstrings
        [.dict [("mkdocstrings", .dict [("handlers", .dict [("python", .dict [])])])]]
      = .ok
        [.dict [("mkdocstrings",
          .dict [("handlers", .dict [("python", .dict [("import", .list [])])])])]] := rfl

/-- C6 (amended): for a document whose `mkdocstrings` entry carries a
`handlers` mapping with a `python` handler mapping that itself has an
`options` mapping, the rewrite clears the preload list when present,
forces the four suppression flags off in the persisted options, and
clears the handler's import list; when no `mkdocstrings` entry exists
the step succeeds and changes nothing.  (When nested keys are missing
the flags are silently dropped or a `KeyError` is raised instead.) -/
theorem mkdocstrings_suppression_amended :
    (∀ (plugins : List Value), (∀ p ∈ plugins, isMkdocstringsPlugin p = false) →
      suppressMkdocstrings plugins = .ok plugins)
    ∧ (∀ (pre post : List Value) (es mk hs ps os : List (String × Value)),
        (∀ p ∈ pre, isMkdocstringsPlugin p = false) →
        lookupV es "mkdocstrings" = some (.dict mk) →
        lookupV mk "handlers" = some (.dict hs) →
        lookupV hs "python" = some (.dict ps) →
        lookupV ps "options" = some (.dict os) →
        ∃ os5 : List (String × Value),
          suppressMkdocstrings (pre ++ .dict es :: post) =
            .ok (pre ++
              .dict (setV es "mkdocstrings"
                (.dict (setV mk "handlers"
                  (.dict (setV hs "python"
                    (.dict (setV (setV ps "options" (.dict os5))
                      "import" (.list [])))))))) :: post)
          ∧ lookupV os5 "signature_crossrefs" = some (.bool false)
          ∧ lookupV os5 "show_inheritance_diagram" = some (.bool false)
          ∧ lookupV os5 "allow_inspection" = some (.bool false)
          ∧ lookupV os5 "enable_inventory" = some (.bool false)
          ∧ (hasKeyV os "preload_modules" = true →
              lookupV os5 "preload_modules" = some (.list []))) := by
  constructor
  · exact suppress_no_entry
  · intro pre post es mk hs ps os hpre hmk hhs hps hos
    obtain ⟨os5, heq, hf1, hf2, hf3, hf4, hf5⟩ :=
      suppressEntry_full_shape es mk hs ps os hmk hhs hps hos
    refine ⟨os5, ?_, hf1, hf2, hf3, hf4, hf5⟩
    exact suppress_found pre post _ _ hpre
      (by simp only [isMkdocstringsPlugin]
          exact lookupV_some_hasKeyV es "mkdocstrings" _ hmk) heq

theorem mkdocstrings_suppression_witness :
    ∃ os5 : List (String × Value),
      suppressMkdocstrings
          [.dict [("mkdocstrings",
            .dict [("handlers",
              .dict [("python",
                .dict [("options",
                  .dict [("preload_modules", .list [.str "langchain"])])])])])]]
        = .ok
          [.dict (setV [("mkdocstrings",
            .dict [("handlers",
              .dict [("python",
                .dict [("options",
                  .dict [("preload_modules", .list [.str "langchain"])])])])])]
            "mkdocstrings"
            (.dict (setV [("handlers",
              .dict [("python",
                .dict [("options",
                  .dict [("preload_modules", .list [.str "langchain"])])])])]
              "handlers"
              (.dict (setV [("python",
                .dict [("options",
                  .dict [("preload_modules", .list [.str "langchain"])])])]
                "python"
                (.dict (setV (setV [("options",
                  .dict [("preload_modules", .list [.str "langchain"])])]
                  "options" (.dict os5)) "import" (.list []))))))))]
      ∧ lookupV os5 "signature_crossrefs" = some (.bool false)
      ∧ lookupV os5 "show_inheritance_diagram" = some (.bool false)
      ∧ lookupV os5 "allow_inspection" = some (.bool false)
      ∧ lookupV os5 "enable_inventory" = some (.bool false)
      ∧ (hasKeyV [("preload_modules", Value.list [.str "langchain"])] "preload_modules" = true →
          lookupV os5 "preload_modules" = some (.list [])) :=
  mkdocstrings_suppression_amended.2 [] []
    [("mkdocstrings",
      .dict [("handlers",
        .dict [("python",
          .dict [("options",
            .dict [("preload_modules", .list [.str "langchain"])])])])])]
    [("handlers",
      .dict [("python",
        .dict [("options",
          .dict [("preload_modules", .list [.str "langchain"])])])])]
    [("python",
      .dict [("options",
        .dict [("preload_modules", .list [.str "langchain"])])])]
    [("options", .dict [("preload_modules", .list [.str "langchain"])])]
    [("preload_modules", .list [.str "langchain"])]
    (by simp) rfl rfl rfl rfl

/-- C7: when the content-directory listing is unavailable, the
exclusion set is empty, the merge step leaves the plugins sequence
untouched (only the mkdocstrings suppression applies), and the core
still completes, producing its output. -/
theorem degraded_listing_continues (nav : List Nav) (plugins : List Value)
    (target : String) (sec : Nav) (plugins2 : List Value)
    (hfind : findSection nav target = some sec)
    (hsup : suppressMkdocstrings plugins = .ok plugins2) :
    exclusionSet none
        (keptRootsOf (getAllPathsL (nav.filter keepAlwaysEntry ++ [sec]))) = []
    ∧ serveSubsetCore nav plugins none target =
        .ok (nav.filter keepAlwaysEntry ++ [sec], plugins2) := by
  refine ⟨rfl, ?_⟩
  simp only [serveSubsetCore, hfind, hsup]

theorem degraded_listing_continues_witness :
    exclusionSet none
        (keptRootsOf (getAllPathsL
          (([Nav.map "LangGraph" (.str "langgraph/index.md") []].filter keepAlwaysEntry)
            ++ [Nav.map "LangGraph" (.str "langgraph/index.md") []]))) = []
    ∧ serveSubsetCore [Nav.map "LangGraph" (.str "langgraph/index.md") []] [] none "langgraph" =
        .ok (([Nav.map "LangGraph" (.str "langgraph/index.md") []].filter keepAlwaysEntry)
          ++ [Nav.map "LangGraph" (.str "langgraph/index.md") []], []) :=
  degraded_listing_continues [Nav.map "LangGraph" (.str "langgraph/index.md") []] []
    "langgraph" (Nav.map "LangGraph" (.str "langgraph/index.md") []) []
    (by simp [findSection, findSectionAux, pyLower, lowerChar]) rfl


end ServeSubset
